import Mathlib

/-!
Verification development for the olova single-file-component compiler
(`vite-plugin-olova`) and its runtime `mount` helper.

JavaScript strings are modelled as `List Char`; JavaScript regular
expressions are modelled by deterministic scanners that implement the
leftmost-match / greedy / lazy semantics of the concrete patterns used in
the plugin.  Machine integers (the 32-bit signed accumulator of
`simpleHash`) are modelled as `Int` with explicit reduction modulo `2^32`.
-/

namespace Olova

/-- JavaScript strings are lists of (UTF-16-ish) characters. -/
abbrev Str := List Char

/-- The single-quote character (spelled by code point). -/
def sq : Char := Char.ofNat 39

/-- The backtick character (spelled by code point). -/
def bt : Char := Char.ofNat 96

/-- Line terminators, the characters that JavaScript `.` does not match. -/
def isLineTerm (c : Char) : Bool :=
  c = '\n' || c = '\r' || c = '\u2028' || c = '\u2029'

/-- The characters matched by JavaScript `\s`. -/
def jsWsChars : Str :=
  [' ', '\t', '\n', '\r', '\x0B', '\x0C', '\u00A0', '\u1680',
   '\u2000', '\u2001', '\u2002', '\u2003', '\u2004', '\u2005', '\u2006',
   '\u2007', '\u2008', '\u2009', '\u200A',
   '\u2028', '\u2029', '\u202F', '\u205F', '\u3000', '\uFEFF']

/-- JavaScript `\s` as a predicate. -/
def isJsWS (c : Char) : Bool := jsWsChars.contains c

/-- JavaScript `\w`, i.e. `[A-Za-z0-9_]`. -/
def isWordChar (c : Char) : Bool := c.isAlphanum || c = '_'

/-- Is the character one of the two JavaScript quote characters `['"]`? -/
def quoteChar (c : Char) : Bool := c = sq || c = '"'

/-- Match a literal pattern at the start of the input, returning the rest. -/
def stripPre : Str → Str → Option Str
  | [], l => some l
  | _ :: _, [] => none
  | p :: ps, c :: cs => if c = p then stripPre ps cs else none

/-- One-or-more repetition of a character class (regex `X+`), greedy. -/
def grab1 (p : Char → Bool) (l : Str) : Option (Str × Str) :=
  match l.takeWhile p with
  | [] => none
  | t => some (t, l.dropWhile p)

/-- Zero-or-more repetition of a character class (regex `X*`), greedy. -/
def grab0 (p : Char → Bool) (l : Str) : Str × Str :=
  (l.takeWhile p, l.dropWhile p)

/-- Leftmost match: try the matcher at every position, left to right,
returning the unmatched text before the match and the matcher's result.
This is how a (non-anchored) JavaScript regex locates its match. -/
def firstMatch (f : Str → Option α) : Str → Option (Str × α)
  | [] => (f []).map (fun a => ([], a))
  | c :: t =>
    match f (c :: t) with
    | some a => some ([], a)
    | none => (firstMatch f t).map (fun pa => (c :: pa.1, pa.2))

/-- Lazy `[\s\S]*?` followed by a literal: the shortest (possibly empty)
prefix of arbitrary characters such that the literal follows; returns the
prefix and the rest after the literal. -/
def lazyUntil (pat : Str) : Str → Option (Str × Str)
  | [] => match stripPre pat [] with
    | some r => some ([], r)
    | none => none
  | c :: t =>
    match stripPre pat (c :: t) with
    | some r => some ([], r)
    | none => (lazyUntil pat t).map (fun pr => (c :: pr.1, pr.2))

/-- JavaScript `String.prototype.split` on a single-character separator. -/
def splitOnChar (sep : Char) : Str → List Str
  | [] => [[]]
  | c :: t =>
    if c = sep then [] :: splitOnChar sep t
    else
      match splitOnChar sep t with
      | [] => [[c]]
      | h :: r => (c :: h) :: r

/-- JavaScript `String.prototype.trim` (strips `\s` from both ends). -/
def trimJs (l : Str) : Str :=
  ((l.dropWhile isJsWS).reverse.dropWhile isJsWS).reverse

/-- Does `pat` occur as a contiguous substring (JS `String.includes`)? -/
def containsSub (pat l : Str) : Bool := (firstMatch (stripPre pat) l).isSome

/-- JavaScript non-global `String.replace` with a literal pattern:
replace the first occurrence only. -/
def replaceFirstSub (pat rep l : Str) : Str :=
  match firstMatch (stripPre pat) l with
  | some (pre, rest) => pre ++ rep ++ rest
  | none => l

/-! ### `simpleHash` (plugin lines 248-257)

```js
function simpleHash(str) {
  let hash = 0;
  for (let i = 0; i < str.length; i++) {
    const char = str.charCodeAt(i);
    hash = (hash << 5) - hash + char;
    hash = hash & hash; // Convert to 32bit integer
  }
  return Math.abs(hash).toString(16);
}
```
-/

/-- Reduction of an integer into the 32-bit signed range, as JavaScript's
`ToInt32` (applied by `<<` and by `&`). -/
def toInt32 (n : Int) : Int := (n + 2 ^ 31) % 2 ^ 32 - 2 ^ 31

/-- One iteration of the `simpleHash` loop: `hash = (hash << 5) - hash + char`
followed by `hash = hash & hash`.  `hash << 5` coerces to 32-bit before
shifting (wrapping), the `-`/`+` are exact in IEEE double for these
magnitudes, and `hash & hash` coerces the sum back to 32-bit. -/
def hashStep (h : Int) (c : Char) : Int :=
  toInt32 (toInt32 (h * 32) - h + c.toNat)

/-- The 32-bit accumulator after consuming the whole string. -/
def simpleHashInt (l : Str) : Int := l.foldl hashStep 0

/-- `simpleHash`: absolute value rendered in lowercase base 16. -/
def simpleHash (l : Str) : Str := Nat.toDigits 16 (simpleHashInt l).natAbs

/-- The scope token: `simpleHash(id).substring(0, 8)` (plugin line 57). -/
def codeToken (id : Str) : Str := (simpleHash id).take 8

/-- The scope attribute: `data-v-` followed by the token (plugin line 58). -/
def scopeIdOf (id : Str) : Str := "data-v-".toList ++ codeToken id

/-! ### `transformScopedCss` (plugin lines 260-332)

Line-based CSS scoping: split on `\n`, track an `inRule` flag, and rewrite
the selector list of each rule-opening line. -/

/-- The per-selector transformation (plugin lines 290-303): at-rules pass
through, selectors containing `:root` have it replaced by `[scopeId]`,
all others are prefixed with `[scopeId] `. -/
def selTransform (scopeId : Str) (sel : Str) : Str :=
  if sel.head? = some '@' then sel
  else if containsSub ":root".toList sel then
    replaceFirstSub ":root".toList ("[".toList ++ scopeId ++ "]".toList) sel
  else "[".toList ++ scopeId ++ "] ".toList ++ sel

/-- The line loop of `transformScopedCss`.  `inRule` starts `false`.
A line opening a rule (contains `{`, not inside a rule) has everything
before the `{` split on commas, each branch trimmed and transformed, the
branches rejoined with `, `, and the remainder of the line after `{`
appended; a line containing `}` while inside a rule is emitted verbatim
and resets the flag; every other line (including at-rules, both branches
of the JS `if` emit the same text) is emitted verbatim. -/
def tscAux (scopeId : Str) : List Str → Bool → Str
  | [], _ => []
  | line :: rest, inRule =>
    let t := trimJs line
    if t.isEmpty then '\n' :: tscAux scopeId rest inRule
    else if t.contains '{' && !inRule then
      let selectorPart := trimJs (t.takeWhile (fun c => !(c = '{')))
      let sels := (splitOnChar ',' selectorPart).map trimJs
      let tsels := sels.map (selTransform scopeId)
      (List.intercalate ", ".toList tsels) ++ " \x7b".toList ++
        ((t.dropWhile (fun c => !(c = '{'))).drop 1) ++ '\n' ::
        tscAux scopeId rest true
    else if t.contains '}' && inRule then
      t ++ '\n' :: tscAux scopeId rest false
    else
      t ++ '\n' :: tscAux scopeId rest inRule

/-- `transformScopedCss(css, scopeId)`. -/
def transformScopedCss (css : Str) (scopeId : Str) : Str :=
  tscAux scopeId (splitOnChar '\n' css) false

/-! ### The import scanner (plugin lines 76-86)

`/import\s+(\w+)\s+from\s+['"](.+?)\.olova['"]/g` run with `exec` in a
loop.  All the greedy pieces (`\s+`, `\w+`) are followed by characters of
a disjoint class, so maximal munch is exact; the lazy `(.+?)` is the
shortest non-empty run of non-line-terminator characters followed by
`.olova` and a quote. -/

/-- The literal `.olova`. -/
def dotOlova : Str := ".olova".toList

/-- Does the input start with `.olova` followed by a quote character
(the regex tail `\.olova['"]`)?  Looks at exactly the first 7 characters. -/
def oqFlag (l : Str) : Bool :=
  (l[0]? = some '.') && (l[1]? = some 'o') && (l[2]? = some 'l') &&
  (l[3]? = some 'o') && (l[4]? = some 'v') && (l[5]? = some 'a') &&
  (match l[6]? with
   | some c => quoteChar c
   | none => false)

/-- Consume `\.olova['"]`, returning the rest of the input. -/
def checkOQ (l : Str) : Option Str := if oqFlag l then some (l.drop 7) else none

/-- The lazy group `(.+?)` followed by `\.olova['"]`: consume the shortest
non-empty run of non-line-terminator characters after which
`\.olova['"]` matches; return (captured run, rest after the quote). -/
def lazyDotOlova : Str → Option (Str × Str)
  | [] => none
  | c :: t =>
    if isLineTerm c then none
    else
      match checkOQ t with
      | some r => some ([c], r)
      | none =>
        match lazyDotOlova t with
        | some (p, r) => some (c :: p, r)
        | none => none

/-- Match the whole import regex anchored at the current position,
returning (component name, path without extension, rest of input). -/
def matchImportAt (l : Str) : Option (Str × Str × Str) :=
  match stripPre "import".toList l with
  | none => none
  | some l1 =>
  match grab1 isJsWS l1 with
  | none => none
  | some (_, l2) =>
  match grab1 isWordChar l2 with
  | none => none
  | some (name, l3) =>
  match grab1 isJsWS l3 with
  | none => none
  | some (_, l4) =>
  match stripPre "from".toList l4 with
  | none => none
  | some l5 =>
  match grab1 isJsWS l5 with
  | none => none
  | some (_, l6) =>
  match l6 with
  | [] => none
  | c :: l7 =>
    if quoteChar c then
      match lazyDotOlova l7 with
      | some (p, r) => some (name, p, r)
      | none => none
    else none

/-- The `exec` loop: scan left to right, collecting non-overlapping
matches; each record is `{name, path: <captured path> + ".olova"}`.
Fuelled by the input length (every match consumes at least one
character, so the fuel is always sufficient). -/
def findImportsAux : Nat → Str → List (Str × Str)
  | 0, _ => []
  | _ + 1, [] => []
  | fuel + 1, c :: t =>
    match matchImportAt (c :: t) with
    | some (n, p, r) => (n, p ++ dotOlova) :: findImportsAux fuel r
    | none => findImportsAux fuel t

/-- The import table of a script (plugin lines 77-86). -/
def findImports (l : Str) : List (Str × Str) := findImportsAux l.length l

/-! ### Component-tag replacement (plugin lines 88-103)

``new RegExp(`<N(\s+[^>]*)?>(.*?)<\/N>|<N(\s+[^>]*)?\/>`, "g")`` and a
global replace producing
``<div data-component="N" ${attrs}>${content||""}</div>``. -/

/-- The lazy `(.*?)` (zero or more non-line-terminators) followed by a
literal closing tag: shortest such run, returning (run, rest after tag). -/
def lazyDotStarUntil (pat : Str) : Str → Option (Str × Str)
  | [] =>
    match stripPre pat [] with
    | some r => some ([], r)
    | none => none
  | c :: t =>
    match stripPre pat (c :: t) with
    | some r => some ([], r)
    | none =>
      if isLineTerm c then none
      else
        match lazyDotStarUntil pat t with
        | some (p, r) => some (c :: p, r)
        | none => none

/-- First alternative `<N(\s+[^>]*)?>(.*?)<\/N>`: returns
(attrs group, content group, rest). -/
def tryTagPaired (name : Str) (l : Str) : Option (Str × Str × Str) :=
  match stripPre ('<' :: name) l with
  | none => none
  | some l1 =>
    let withAttrs :=
      match l1 with
      | c :: _ => isJsWS c
      | [] => false
    let attrs := if withAttrs then l1.takeWhile (fun x => !(x = '>')) else []
    let l2 := if withAttrs then l1.dropWhile (fun x => !(x = '>')) else l1
    match l2 with
    | '>' :: l3 =>
      match lazyDotStarUntil ("</".toList ++ name ++ ">".toList) l3 with
      | some (content, r) => some (attrs, content, r)
      | none => none
    | _ => none

/-- Second alternative `<N(\s+[^>]*)?\/>`: the greedy `[^>]*` backtracks
exactly one `/` so the run of non-`>` characters must end in `/`;
returns (attrs group, rest). -/
def tryTagSelf (name : Str) (l : Str) : Option (Str × Str) :=
  match stripPre ('<' :: name) l with
  | none => none
  | some l1 =>
    match l1 with
    | c :: _ =>
      if isJsWS c then
        let run := l1.takeWhile (fun x => !(x = '>'))
        match l1.dropWhile (fun x => !(x = '>')) with
        | '>' :: r2 =>
          if run.getLast? = some '/' then some (run.dropLast, r2) else none
        | _ => none
      else
        match l1 with
        | '/' :: '>' :: r2 => some ([], r2)
        | _ => none
    | [] => none

/-- The alternation, tried left to right as JavaScript does; the
self-closing branch has empty content (`content || ""`). -/
def tryTag (name : Str) (l : Str) : Option (Str × Str × Str) :=
  match tryTagPaired name l with
  | some acr => some acr
  | none => (tryTagSelf name l).map (fun ar => (ar.1, [], ar.2))

/-- `<div data-component="N" ${attrs}>${content || ""}</div>`. -/
def placeholderFor (name attrs content : Str) : Str :=
  "<div data-component=\"".toList ++ name ++ "\" ".toList ++ attrs ++
    ">".toList ++ content ++ "</div>".toList

/-- Global replace: scan left to right, replacing non-overlapping
matches.  Fuelled by input length (matches consume at least two
characters). -/
def replaceTagsAux (name : Str) : Nat → Str → Str
  | 0, l => l
  | _ + 1, [] => []
  | fuel + 1, c :: t =>
    match tryTag name (c :: t) with
    | some (attrs, content, r) =>
      placeholderFor name attrs content ++ replaceTagsAux name fuel r
    | none => c :: replaceTagsAux name fuel t

/-- One `htmlContent.replace(componentTagRegex, ...)` pass (plugin
lines 89-103). -/
def replaceTags (name l : Str) : Str := replaceTagsAux name l.length l

/-- `htmlContent.replace(/`+backtick+`/g, "\\`+backtick+`")` (plugin line 149). -/
def escapeBackticks : Str → Str
  | [] => []
  | c :: t => if c = bt then '\\' :: bt :: escapeBackticks t else c :: escapeBackticks t

/-! ### Script cleaning (plugin lines 132-146): six global replaces by "". -/

/-- If the head character is `c`, consume it (regex `c?`). -/
def optChar (c : Char) (l : Str) : Str :=
  match l with
  | x :: t => if x = c then t else l
  | [] => l

/-- Pass 1 matcher: the import regex again, erased. -/
def mImportOlova (l : Str) : Option Str := (matchImportAt l).map (fun x => x.2.2)

/-- `setProps\([^)]*\);?` — shared tail of passes 3, 4 and 5. -/
def mCallSetProps (l : Str) : Option Str :=
  match stripPre "setProps(".toList l with
  | none => none
  | some l1 =>
    match l1.dropWhile (fun c => !(c = ')')) with
    | ')' :: l2 => some (optChar ';' l2)
    | _ => none

/-- Pass 2 matcher: `import\s+{?\s*setProps\s*}?\s*from\s+['"][^'"]+['"]\s*;?\s*`. -/
def mImportSetProps (l : Str) : Option Str :=
  match stripPre "import".toList l with
  | none => none
  | some l1 =>
  match grab1 isJsWS l1 with
  | none => none
  | some (_, l2) =>
  match stripPre "setProps".toList ((grab0 isJsWS (optChar '{' l2)).2) with
  | none => none
  | some l5 =>
  match stripPre "from".toList ((grab0 isJsWS (optChar '}' ((grab0 isJsWS l5).2))).2) with
  | none => none
  | some l9 =>
  match grab1 isJsWS l9 with
  | none => none
  | some (_, l10) =>
  match l10 with
  | c :: l11 =>
    if quoteChar c then
      match grab1 (fun x => !(quoteChar x)) l11 with
      | none => none
      | some (_, l12) =>
        match l12 with
        | c2 :: l13 =>
          if quoteChar c2 then
            some ((grab0 isJsWS (optChar ';' ((grab0 isJsWS l13).2))).2)
          else none
        | [] => none
    else none
  | [] => none

/-- Pass 3 matcher: `(?:let|const|var)\s+props\s*=\s*setProps\([^)]*\);?`. -/
def mPropsDecl (l : Str) : Option Str :=
  let afterKw : Str → Option Str := fun l1 =>
    match grab1 isJsWS l1 with
    | none => none
    | some (_, l2) =>
    match stripPre "props".toList l2 with
    | none => none
    | some l3 =>
    match (grab0 isJsWS l3).2 with
    | '=' :: l5 => mCallSetProps ((grab0 isJsWS l5).2)
    | _ => none
  match stripPre "let".toList l with
  | some l1 => afterKw l1
  | none =>
    match stripPre "const".toList l with
    | some l1 => afterKw l1
    | none =>
      match stripPre "var".toList l with
      | some l1 => afterKw l1
      | none => none

/-- Pass 5 matcher: `\w+\s*=\s*setProps\([^)]*\);?`. -/
def mAssignSetProps (l : Str) : Option Str :=
  match grab1 isWordChar l with
  | none => none
  | some (_, l1) =>
    match (grab0 isJsWS l1).2 with
    | '=' :: l3 => mCallSetProps ((grab0 isJsWS l3).2)
    | _ => none

/-- Pass 6 matcher: `function\s+setProps\s*\([^)]*\)\s*{[^}]*}`. -/
def mFunSetProps (l : Str) : Option Str :=
  match stripPre "function".toList l with
  | none => none
  | some l1 =>
  match grab1 isJsWS l1 with
  | none => none
  | some (_, l2) =>
  match stripPre "setProps".toList l2 with
  | none => none
  | some l3 =>
  match (grab0 isJsWS l3).2 with
  | '(' :: l5 =>
    match l5.dropWhile (fun c => !(c = ')')) with
    | ')' :: l6 =>
      match (grab0 isJsWS l6).2 with
      | '{' :: l8 =>
        match l8.dropWhile (fun c => !(c = '}')) with
        | '}' :: l9 => some l9
        | _ => none
      | _ => none
    | _ => none
  | _ => none

/-- A global replace by the empty string: scan left to right erasing
non-overlapping matches.  Fuelled by input length (every matcher here
consumes at least one character). -/
def eraseAllAux (f : Str → Option Str) : Nat → Str → Str
  | 0, l => l
  | _ + 1, [] => []
  | fuel + 1, c :: t =>
    match f (c :: t) with
    | some r => eraseAllAux f fuel r
    | none => c :: eraseAllAux f fuel t

/-- `s.replace(pattern, "")` with a global pattern. -/
def eraseAll (f : Str → Option Str) (l : Str) : Str := eraseAllAux f l.length l

/-- The six chained replaces producing `modifiedScriptContent`
(plugin lines 132-146), applied in source order. -/
def cleanScript (s : Str) : Str :=
  eraseAll mFunSetProps (eraseAll mAssignSetProps (eraseAll mCallSetProps
    (eraseAll mPropsDecl (eraseAll mImportSetProps (eraseAll mImportOlova s)))))

/-! ### Section extraction (plugin lines 61-74) -/

/-- `/<script>([\s\S]*?)<\/script>/` anchored at the current position:
(content, rest). -/
def matchScriptAt (l : Str) : Option (Str × Str) :=
  match stripPre "<script>".toList l with
  | none => none
  | some r => lazyUntil "</script>".toList r

/-- `(code.match(scriptMatch) || [])[1] || ""`. -/
def scriptContentOf (src : Str) : Str :=
  match firstMatch matchScriptAt src with
  | some (_, content, _) => content
  | none => []

/-- `code.replace(/<script>[\s\S]*?<\/script>/, "")` (first match only). -/
def removeFirstScript (src : Str) : Str :=
  match firstMatch matchScriptAt src with
  | some (pre, _, rest) => pre ++ rest
  | none => src

/-- `/<style(\s+scoped)?>([\s\S]*?)<\/style>/` anchored at the current
position: (scoped-group present, content, rest). -/
def matchStyleAt (l : Str) : Option (Bool × Str × Str) :=
  match stripPre "<style".toList l with
  | none => none
  | some r =>
    match grab1 isJsWS r with
    | some (_, r2) =>
      match stripPre "scoped>".toList r2 with
      | some r3 => (lazyUntil "</style>".toList r3).map (fun cr => (true, cr.1, cr.2))
      | none => none
    | none =>
      match stripPre ">".toList r with
      | some r2 => (lazyUntil "</style>".toList r2).map (fun cr => (false, cr.1, cr.2))
      | none => none

/-- `styleTagMatch[1] !== undefined` and `styleTagMatch[2] || ""`
(plugin lines 66-68). -/
def styleInfoOf (src : Str) : Bool × Str :=
  match firstMatch matchStyleAt src with
  | some (_, sc, content, _) => (sc, content)
  | none => (false, [])

/-- `.replace(/<style(\s+scoped)?>([\s\S]*?)<\/style>/, "")` (first match). -/
def removeFirstStyle (src : Str) : Str :=
  match firstMatch matchStyleAt src with
  | some (pre, _, _, rest) => pre ++ rest
  | none => src

/-! ### Component name derivation (plugin lines 51-53) -/

/-- `path.basename(id)` restricted to posix separators and ids without a
trailing separator (the plugin only calls it on `.olova` paths): the part
after the last `/`. -/
def baseName (id : Str) : Str := (id.reverse.takeWhile (fun c => !(c = '/'))).reverse

/-- `path.basename(id, ".olova")`: additionally strip the extension,
unless the basename is the extension itself (Node keeps it then). -/
def fileStem (id : Str) : Str :=
  let b := baseName id
  if dotOlova.isSuffixOf b ∧ ¬ b = dotOlova then b.take (b.length - 6) else b

/-- `fileName.charAt(0).toUpperCase() + fileName.slice(1)`. -/
def capitalizeFirst : Str → Str
  | [] => []
  | c :: t => c.toUpper :: t

/-! ### The emitted module (plugin lines 117-129 and 152-225)

The template literals are transcribed byte for byte; `${...}`
interpolations become appends.  Literal braces are written with `\x7b`
and `\x7d` escapes. -/

/-- The development-only style-injection snippet (plugin lines 120-128). -/
def cssCodeTemplate (name style : Str) : Str :=
  "\n          // Add styles to document head (only once per component type)\n          if (!document.querySelector('style[data-olova-component=\"".toList
  ++ name
  ++ "\"]')) \x7b\n            const styleEl = document.createElement('style');\n            styleEl.setAttribute('data-olova-component', '".toList
  ++ name
  ++ "');\n            styleEl.textContent = `".toList
  ++ style
  ++ "`;\n            document.head.appendChild(styleEl);\n          \x7d\n        ".toList

/-- `imports.map((imp) => import-line).join("\n")` (plugin lines 155-157). -/
def importLinesOf (imports : List (Str × Str)) : Str :=
  List.intercalate "\n".toList (imports.map (fun imp =>
    "import ".toList ++ imp.1 ++ " from './".toList ++ imp.2 ++ "';".toList))

/-- The per-import mount snippet, joined with `"\n"` (plugin lines 201-212). -/
def mountCallsOf (imports : List (Str × Str)) : Str :=
  List.intercalate "\n".toList (imports.map (fun imp =>
    "\n              const ".toList ++ imp.1.map Char.toLower
    ++ "Elements = container.querySelectorAll('[data-component=\"".toList ++ imp.1
    ++ "\"]');\n              ".toList ++ imp.1.map Char.toLower
    ++ "Elements.forEach(el => \x7b\n                ".toList ++ imp.1
    ++ "(el);\n              \x7d);\n            ".toList))

/-- `${isScoped ? "container.setAttribute('scopeId', '');" : ""}` (line 168). -/
def scopedSetAttrOf (isScoped : Bool) (scopeId : Str) : Str :=
  if isScoped then "container.setAttribute('".toList ++ scopeId ++ "', '');".toList
  else []

/-- The scoped top-level-children snippet (plugin lines 185-195). -/
def scopedChildrenOf (isScoped : Bool) (scopeId : Str) : Str :=
  if isScoped then
    "\n            Array.from(container.children).forEach(child => \x7b\n              if (!child.hasAttribute('".toList
    ++ scopeId
    ++ "')) \x7b\n                child.setAttribute('".toList
    ++ scopeId
    ++ "', '');\n              \x7d\n            \x7d);\n            ".toList
  else []

/-- The final `export default ${componentName}Component();` statement. -/
def exportStmt (componentName : Str) : Str :=
  "export default ".toList ++ componentName ++ "Component();".toList

/-- `resultCode` (plugin lines 152-225), the emitted module text. -/
def resultCodeOf (imports : List (Str × Str)) (componentName cssCode : Str)
    (isScoped : Bool) (scopeId escapedHtml modifiedScript : Str) : Str :=
  "\n        // Import directly from main.js instead of olova.js\n        \n        ".toList
  ++ importLinesOf imports
  ++ "\n        \n        // Create the component definition\n        function ".toList
  ++ componentName
  ++ "Component() \x7b\n          ".toList
  ++ cssCode
  ++ "\n          \n          // Return a function that will mount the component and run its script\n          return function(targetElement) \x7b\n            // Create a new container for each component instance\n            const container = document.createElement('div');\n            container.setAttribute('data-olova-component', '".toList
  ++ componentName
  ++ "');\n            ".toList
  ++ scopedSetAttrOf isScoped scopeId
  ++ "\n            \n            // Create local references to elements within this component instance\n            const querySelector = selector => container.querySelector(selector);\n            const querySelectorAll = selector => container.querySelectorAll(selector);\n            const getElementById = id => \x7b\n              const el = container.querySelector('#' + id);\n              return el || document.getElementById(id);\n            \x7d;\n            \n            // First add the HTML content to the container\n            container.innerHTML = `".toList
  ++ escapedHtml
  ++ "`;\n            \n            // Then run the component script\n            ".toList
  ++ modifiedScript
  ++ "\n            \n            // If scoped, ensure all top-level elements have the scope ID\n            ".toList
  ++ scopedChildrenOf isScoped scopeId
  ++ "\n            \n            // Append the component's HTML to the target\n            targetElement.appendChild(container);\n            \n            // Mount child components\n            ".toList
  ++ mountCallsOf imports
  ++ "\n            \n            // Return a cleanup function\n            return function() \x7b\n              if (targetElement.contains(container)) \x7b\n                targetElement.removeChild(container);\n              \x7d\n            \x7d;\n          \x7d;\n        \x7d\n        \n        // Export the component directly without using registerComponent\n        ".toList
  ++ exportStmt componentName
  ++ "\n      ".toList

/-- All artifacts of one `transform(code, id)` call.  The plugin's side
effect on the shared `allCssContent` map is modelled by the `aggEntry`
field (`some (componentName, processedStyle)` exactly when the plugin
calls `allCssContent.set`). -/
structure TransformOut where
  componentName : Str
  scopeId : Str
  scriptContent : Str
  isScoped : Bool
  styleContent : Str
  imports : List (Str × Str)
  htmlContent : Str
  processedStyle : Str
  aggEntry : Option (Str × Str)
  cssCode : Str
  code : Str
  map : Option Str

/-- The body of the plugin's `transform` hook (lines 50-230), after the
`.olova` extension check has passed. -/
def transformCore (src id : Str) (isProd : Bool) : TransformOut :=
  let componentName := capitalizeFirst (fileStem id)
  let scopeId := "data-v-".toList ++ codeToken id
  let scriptContent := scriptContentOf src
  let sinfo := styleInfoOf src
  let isScoped := sinfo.1
  let styleContent := sinfo.2
  let htmlContent0 := trimJs (removeFirstStyle (removeFirstScript src))
  let imports := findImports scriptContent
  let htmlContent := imports.foldl (fun h imp => replaceTags imp.1 h) htmlContent0
  let processedStyle := if isScoped then transformScopedCss styleContent scopeId else styleContent
  let aggEntry := if styleContent.isEmpty then none else some (componentName, processedStyle)
  let cssCode :=
    if !styleContent.isEmpty && !isProd then cssCodeTemplate componentName processedStyle
    else []
  let modifiedScript := cleanScript scriptContent
  let escapedHtml := escapeBackticks htmlContent
  { componentName, scopeId, scriptContent, isScoped, styleContent, imports,
    htmlContent, processedStyle, aggEntry, cssCode,
    code := resultCodeOf imports componentName cssCode isScoped scopeId escapedHtml modifiedScript,
    map := none }

/-- The `transform` hook including the `id.endsWith(".olova")` guard
(plugin line 48): non-olova modules pass through (`null`). -/
def transform (src id : Str) (isProd : Bool) : Option TransformOut :=
  if dotOlova.isSuffixOf id then some (transformCore src id isProd) else none

/-! ### The CSS aggregator (plugin lines 8, 21-44, 234-243) -/

/-- One aggregated block:
`/* ${componentName} Component Styles */\n\n${css}\n\n\n\n` (line 34). -/
def cssBlock (e : Str × Str) : Str :=
  "/* ".toList ++ e.1 ++ " Component Styles */\n\n".toList ++ e.2 ++ "\n\n\n\n".toList

/-- `combinedCss`: concatenation over the map in iteration order (lines 30-35). -/
def combinedCssOf (m : List (Str × Str)) : Str := (m.map cssBlock).flatten

/-- `Map.prototype.set`: overwrite in place if the key exists (keeping
its insertion position), otherwise append. -/
def mapSet (m : List (Str × Str)) (k v : Str) : List (Str × Str) :=
  if m.any (fun e => e.1 = k) then m.map (fun e => if e.1 = k then (k, v) else e)
  else m ++ [(k, v)]

/-- `generateBundle` (lines 27-44): when the map is non-empty, emit one
asset `assets/style.css` whose source is the combined CSS. -/
def generateBundle (m : List (Str × Str)) : Option (Str × Str) :=
  if m.isEmpty then none else some ("assets/style.css".toList, combinedCssOf m)

/-! ### The runtime `mount` (src/olova.js lines 6-21) -/

/-- The slice of a DOM element that `mount` touches: an identity and its
`innerHTML`. -/
structure Node where
  nodeId : Nat
  innerHTML : Str
deriving DecidableEq

/-- What `mount` returns: either the no-op arrow function `() => {}`
(selector miss) or the teardown produced by the component factory. -/
inductive Teardown (τ : Type) where
  | noop : Teardown τ
  | ofComponent : τ → Teardown τ

/-- `console.error` message on a selector miss (olova.js line 18). -/
def notFoundMsg (selector : Str) : Str :=
  "Target element \"".toList ++ selector ++ "\" not found".toList

/-- `mount(componentMount, selector, props)`: look the target up via the
document's `querySelector`; on a hit clear its content, call the factory
on the cleared node, and return its teardown; on a miss log an error and
return the no-op teardown.  The second component of the result is the
list of `console.error` messages emitted. -/
def mount {π τ : Type} (querySelector : Str → Option Node)
    (componentMount : Node → π → τ) (selector : Str) (props : π) :
    Teardown τ × List Str :=
  match querySelector selector with
  | some el =>
    (Teardown.ofComponent (componentMount { el with innerHTML := [] } props), [])
  | none => (Teardown.noop, [notFoundMsg selector])

/-! ### The scope-token recurrences written in the specification

`spec.md` §4.5 describes the rolling hash as
`hash = hash*31 - hash + charCode` "(or equivalent bit-shift
formulation)".  Both recurrences are formalised here, word for word, to
be compared with `simpleHash` above. -/

/-- The literal recurrence of the spec: `hash = hash*31 - hash + charCode`,
accumulated into a 32-bit signed integer. -/
def specStepLiteral (h : Int) (c : Char) : Int := toInt32 (h * 31 - h + c.toNat)

/-- Spec-worded token with the literal recurrence: absolute value,
base-16, truncated to 8 characters. -/
def specTokenLiteral (id : Str) : Str :=
  (Nat.toDigits 16 (id.foldl specStepLiteral 0).natAbs).take 8

/-- The bit-shift recurrence actually used by the code, as a spec-level
formula: `hash = hash*32 - hash + charCode` (that is,
`(hash << 5) - hash + charCode`), accumulated into a 32-bit signed
integer. -/
def specStepShift (h : Int) (c : Char) : Int := toInt32 (h * 32 - h + c.toNat)

/-- Spec-worded token with the bit-shift recurrence. -/
def specTokenShift (id : Str) : Str :=
  (Nat.toDigits 16 (id.foldl specStepShift 0).natAbs).take 8

/-! ### Well-formed import statements, for the Import Resolver claim

A script made of one import statement per line.  `ext` is the literal
extension text (`.olova` for component imports). -/

/-- One import statement: local name, module path (without extension),
and extension. -/
structure ImpItem where
  name : Str
  path : Str
  ext : Str

/-- `import <name> from '<path><ext>'`. -/
def stmtOf (it : ImpItem) : Str :=
  "import ".toList ++ it.name ++ " from ".toList ++ sq ::
    (it.path ++ it.ext ++ [sq])

/-- The script: the statements, one per line. -/
def scriptOf (items : List ImpItem) : Str :=
  (items.map (fun it => stmtOf it ++ ['\n'])).flatten

/-- The records the resolver is expected to produce: the component-
extension imports, in order, with `.olova` re-appended to the captured
path. -/
def expectedRecords (items : List ImpItem) : List (Str × Str) :=
  items.filterMap (fun it =>
    if it.ext = dotOlova then some (it.name, it.path ++ dotOlova) else none)

/-- The pattern visibly fails against the available characters of `x`
(so it also fails however `x` is extended). -/
def mism (pat x : Str) : Prop := (x.take pat.length).isPrefixOf pat = false

/-- No proper suffix of the path already reads as `.olova` + quote when
`.olova'` follows: the lazy group stops exactly at the full path. -/
def noEarly (path : Str) : Prop :=
  ∀ j < path.length, 0 < j → oqFlag (path.drop j ++ dotOlova ++ [sq]) = false

/-- No window inside `l` (the quoted text of a non-component import)
reads as `.olova` + quote: the lazy group finds nothing. -/
def noWin (l : Str) : Prop :=
  ∀ j < l.length, 0 < j → 7 ≤ (l.drop j).length → oqFlag (l.drop j) = false

/-- The literal `import` does not begin at any interior position of the
statement (so the scanner cannot start a match inside it). -/
def noInner (it : ImpItem) : Prop :=
  ∀ k < (stmtOf it ++ ['\n']).length, 0 < k →
    mism "import".toList ((stmtOf it ++ ['\n']).drop k)

/-- Well-formedness of one generated import statement. -/
def wfItem (it : ImpItem) : Prop :=
  it.name ≠ [] ∧ (∀ c ∈ it.name, isWordChar c = true) ∧ it.path ≠ [] ∧
  (if it.ext = dotOlova then
     (∀ c ∈ it.path, isLineTerm c = false) ∧ noEarly it.path
   else
     noWin (it.path ++ it.ext ++ [sq]) ∧ noInner it)

instance wfItem_decidable (it : ImpItem) : Decidable (wfItem it) := by
  unfold wfItem noEarly noWin noInner mism
  infer_instance

/-! ## Lemmas -/

theorem stripPre_iff {p l r : Str} : stripPre p l = some r ↔ l = p ++ r := by
  induction p generalizing l with
  | nil => simp [stripPre]
  | cons a ps ih =>
    cases l with
    | nil => simp [stripPre]
    | cons c cs =>
      by_cases hc : c = a
      · subst hc
        simp [stripPre, ih]
      · simp [stripPre, hc, Ne.symm hc]

theorem stripPre_exact (p r : Str) : stripPre p (p ++ r) = some r :=
  stripPre_iff.mpr rfl

theorem mism_strip {p x : Str} (h : mism p x) (r : Str) : stripPre p (x ++ r) = none := by
  induction p generalizing x with
  | nil => simp [mism] at h
  | cons a ps ih =>
    cases x with
    | nil => simp [mism, List.isPrefixOf] at h
    | cons c cs =>
      by_cases hc : c = a
      · subst hc
        simp only [mism, List.take, List.isPrefixOf, Bool.and_eq_false_iff] at h
        rcases h with h | h
        · simp at h
        · exact by simpa [stripPre] using ih (by simpa [mism] using h)
      · simp [stripPre, hc]

theorem takeWhile_app {p : Char → Bool} {a rest : Str} (ha : ∀ c ∈ a, p c = true)
    (hstop : ∀ c, rest.head? = some c → p c = false) :
    (a ++ rest).takeWhile p = a ∧ (a ++ rest).dropWhile p = rest := by
  induction a with
  | nil =>
    cases rest with
    | nil => simp
    | cons c cs => simp [List.takeWhile, List.dropWhile, hstop c rfl]
  | cons x xs ih =>
    have hx := ha x (by simp)
    have := ih (fun c hc => ha c (by simp [hc]))
    simp [List.takeWhile, List.dropWhile, hx, this.1, this.2]

theorem grab1_app {p : Char → Bool} {a rest : Str} (hne : a ≠ [])
    (ha : ∀ c ∈ a, p c = true)
    (hstop : ∀ c, rest.head? = some c → p c = false) :
    grab1 p (a ++ rest) = some (a, rest) := by
  have h1 := (takeWhile_app ha hstop).1
  have h2 := (takeWhile_app ha hstop).2
  cases a with
  | nil => exact absurd rfl hne
  | cons x xs =>
    simp only [List.cons_append] at h1 h2
    simp [grab1, h1, h2]

theorem word_not_ws {c : Char} (h : isWordChar c = true) : isJsWS c = false := by
  cases hw : isJsWS c
  · rfl
  · exfalso
    have hmem : c ∈ jsWsChars := by simpa [isJsWS, List.contains] using hw
    have hmem2 : c ∈ ([' ', '\t', '\n', '\r', '\x0B', '\x0C', ' ', ' ',
      ' ', ' ', ' ', ' ', ' ', ' ', ' ',
      ' ', ' ', ' ', ' ',
      ' ', ' ', ' ', ' ', '　', '﻿'] : List Char) := hmem
    fin_cases hmem2 <;> exact absurd h (by decide)

theorem flag_indep {x : Str} (h : 7 ≤ x.length) (y : Str) : oqFlag (x ++ y) = oqFlag x := by
  have g0 : (x ++ y)[0]? = x[0]? := List.getElem?_append_left (by omega)
  have g1 : (x ++ y)[1]? = x[1]? := List.getElem?_append_left (by omega)
  have g2 : (x ++ y)[2]? = x[2]? := List.getElem?_append_left (by omega)
  have g3 : (x ++ y)[3]? = x[3]? := List.getElem?_append_left (by omega)
  have g4 : (x ++ y)[4]? = x[4]? := List.getElem?_append_left (by omega)
  have g5 : (x ++ y)[5]? = x[5]? := List.getElem?_append_left (by omega)
  have g6 : (x ++ y)[6]? = x[6]? := List.getElem?_append_left (by omega)
  unfold oqFlag
  rw [g0, g1, g2, g3, g4, g5, g6]

theorem oq_barrier {x : Str} (h : x.length ≤ 6) (r : Str) :
    oqFlag (x ++ '\n' :: r) = false := by
  have hx : (x ++ '\n' :: r)[x.length]? = some '\n' := by
    rw [List.getElem?_append_right (le_refl _)]
    simp
  have h7 : x.length = 0 ∨ x.length = 1 ∨ x.length = 2 ∨ x.length = 3 ∨
      x.length = 4 ∨ x.length = 5 ∨ x.length = 6 := by omega
  rcases h7 with hk | hk | hk | hk | hk | hk | hk <;>
    (rw [hk] at hx; simp [oqFlag, hx, quoteChar, sq])

theorem checkOQ_exact (r : Str) : checkOQ (dotOlova ++ sq :: r) = some r := by
  have hf : oqFlag (dotOlova ++ sq :: r) = true := by
    simp [oqFlag, dotOlova, quoteChar]
  unfold checkOQ
  rw [show dotOlova = ['.', 'o', 'l', 'o', 'v', 'a'] from rfl] at hf ⊢
  simp only [hf]
  simp

theorem checkOQ_none_of_flag {l : Str} (h : oqFlag l = false) : checkOQ l = none := by
  simp [checkOQ, h]

theorem noEarly_shift {c : Char} {p : Str} (h : noEarly (c :: p)) : noEarly p := by
  intro j hj hj0
  have := h (j + 1) (by simp; omega) (by omega)
  simpa using this

theorem noWin_shift {c : Char} {t : Str} (h : noWin (c :: t)) : noWin t := by
  intro j hj hj0 h7
  have := h (j + 1) (by simp; omega) (by omega) (by simpa using h7)
  simpa using this

theorem ld_cons {c : Char} (t : Str) (hc : isLineTerm c = false) :
    lazyDotOlova (c :: t) =
      match checkOQ t with
      | some r => some ([c], r)
      | none =>
        match lazyDotOlova t with
        | some (p, r) => some (c :: p, r)
        | none => none := by
  rw [lazyDotOlova, hc]
  simp

theorem ld_exact {path : Str} (hne : path ≠ [])
    (hlt : ∀ c ∈ path, isLineTerm c = false) (hearly : noEarly path) (tail : Str) :
    lazyDotOlova (path ++ dotOlova ++ sq :: tail) = some (path, tail) := by
  induction path with
  | nil => exact absurd rfl hne
  | cons c p ih =>
    have hc : isLineTerm c = false := hlt c (by simp)
    have hshape : (c :: p) ++ dotOlova ++ sq :: tail = c :: (p ++ dotOlova ++ sq :: tail) := by
      simp
    rw [hshape, ld_cons _ hc]
    by_cases hp : p = []
    · subst hp
      have : ([] : Str) ++ dotOlova ++ sq :: tail = dotOlova ++ sq :: tail := by simp
      rw [this, checkOQ_exact]
    · have hplen : 0 < p.length := List.length_pos.mpr hp
      have hlen : 7 ≤ (p ++ dotOlova ++ [sq]).length := by simp [dotOlova]
      have h1 : oqFlag (p ++ dotOlova ++ [sq]) = false := by
        have := hearly 1 (by simp; omega) one_pos
        simpa using this
      have hoq : checkOQ (p ++ dotOlova ++ sq :: tail) = none := by
        apply checkOQ_none_of_flag
        have he : p ++ dotOlova ++ sq :: tail = (p ++ dotOlova ++ [sq]) ++ tail := by simp
        rw [he, flag_indep hlen, h1]
      have hrec := ih hp (fun x hx => hlt x (by simp [hx])) (noEarly_shift hearly)
      rw [hoq, hrec]

theorem ld_none {l : Str} (hwin : noWin l) (r : Str) :
    lazyDotOlova (l ++ '\n' :: r) = none := by
  induction l with
  | nil => simp [lazyDotOlova, isLineTerm]
  | cons c t ih =>
    cases hc : isLineTerm c with
    | true =>
      have hshape : (c :: t) ++ '\n' :: r = c :: (t ++ '\n' :: r) := by simp
      rw [hshape, lazyDotOlova, hc]
      simp
    | false =>
      have hoq : checkOQ (t ++ '\n' :: r) = none := by
        by_cases h7 : 7 ≤ t.length
        · apply checkOQ_none_of_flag
          rw [flag_indep h7]
          exact hwin 1 (by simp; omega) one_pos (by simpa)
        · exact checkOQ_none_of_flag (oq_barrier (by omega) r)
      have hrec := ih (noWin_shift hwin)
      have hshape : (c :: t) ++ '\n' :: r = c :: (t ++ '\n' :: r) := by simp
      rw [hshape, ld_cons _ hc, hoq, hrec]


theorem quote_not_ws {c : Char} (h : quoteChar c = true) : isJsWS c = false := by
  have h2 : c = sq ∨ c = '"' := by simpa [quoteChar] using h
  rcases h2 with rfl | rfl <;> decide

theorem grab1_ws_space (rest : Str)
    (hstop : ∀ c, rest.head? = some c → isJsWS c = false) :
    grab1 isJsWS (' ' :: rest) = some ([' '], rest) := by
  have h : grab1 isJsWS ([' '] ++ rest) = some ([' '], rest) :=
    grab1_app (by simp) (by intro c hc; simp at hc; subst hc; decide) hstop
  simpa using h

theorem mia_shape {name : Str} (rest2 : Str) {q1 : Char}
    (hn : name ≠ []) (hw : ∀ c ∈ name, isWordChar c = true)
    (hq1 : quoteChar q1 = true) :
    matchImportAt ("import ".toList ++ name ++ " from ".toList ++ q1 :: rest2)
      = match lazyDotOlova rest2 with
        | some (p, r) => some (name, p, r)
        | none => none := by
  obtain ⟨c0, name', rfl⟩ : ∃ c0 name', name = c0 :: name' := by
    cases name with
    | nil => exact absurd rfl hn
    | cons a b => exact ⟨a, b, rfl⟩
  have e1 : "import ".toList ++ (c0 :: name') ++ " from ".toList ++ q1 :: rest2
      = "import".toList ++ (' ' :: ((c0 :: name') ++
          (' ' :: ('f' :: 'r' :: 'o' :: 'm' :: (' ' :: (q1 :: rest2))))))  := by
    simp
  rw [e1]
  unfold matchImportAt
  rw [stripPre_exact]
  dsimp only
  have g2 : grab1 isJsWS (' ' :: ((c0 :: name') ++
      (' ' :: ('f' :: 'r' :: 'o' :: 'm' :: (' ' :: (q1 :: rest2))))))
      = some ([' '], (c0 :: name') ++
          (' ' :: ('f' :: 'r' :: 'o' :: 'm' :: (' ' :: (q1 :: rest2))))) :=
    grab1_ws_space _
      (by intro c hc; simp at hc; subst hc; exact word_not_ws (hw c0 (by simp)))
  rw [g2]
  dsimp only
  have g3 : grab1 isWordChar ((c0 :: name') ++
      (' ' :: ('f' :: 'r' :: 'o' :: 'm' :: (' ' :: (q1 :: rest2)))))
      = some (c0 :: name', ' ' :: ('f' :: 'r' :: 'o' :: 'm' :: (' ' :: (q1 :: rest2)))) := by
    exact grab1_app (by simp) hw
      (by intro c hc; simp at hc; subst hc; decide)
  rw [g3]
  dsimp only
  have g4 : grab1 isJsWS (' ' :: ('f' :: 'r' :: 'o' :: 'm' :: (' ' :: (q1 :: rest2))))
      = some ([' '], 'f' :: 'r' :: 'o' :: 'm' :: (' ' :: (q1 :: rest2))) :=
    grab1_ws_space _ (by intro c hc; simp at hc; subst hc; decide)
  rw [g4]
  dsimp only
  have g5 : stripPre "from".toList ('f' :: 'r' :: 'o' :: 'm' :: (' ' :: (q1 :: rest2)))
      = some (' ' :: (q1 :: rest2)) := by
    have := stripPre_exact "from".toList (' ' :: (q1 :: rest2))
    simpa using this
  rw [g5]
  dsimp only
  have g6 : grab1 isJsWS (' ' :: (q1 :: rest2)) = some ([' '], q1 :: rest2) :=
    grab1_ws_space _ (by intro c hc; simp at hc; subst hc; exact quote_not_ws hq1)
  rw [g6]
  dsimp only
  rw [hq1]
  simp

theorem mia_olova {it : ImpItem} (hext : it.ext = dotOlova)
    (hn : it.name ≠ []) (hw : ∀ c ∈ it.name, isWordChar c = true)
    (hp : it.path ≠ []) (hlt : ∀ c ∈ it.path, isLineTerm c = false)
    (hearly : noEarly it.path) (rest : Str) :
    matchImportAt (stmtOf it ++ '\n' :: rest) = some (it.name, it.path, '\n' :: rest) := by
  have hshape : stmtOf it ++ '\n' :: rest
      = "import ".toList ++ it.name ++ " from ".toList ++ sq ::
          (it.path ++ dotOlova ++ sq :: ('\n' :: rest)) := by
    simp [stmtOf, hext]
  rw [hshape, mia_shape _ hn hw (by decide), ld_exact hp hlt hearly]

theorem mia_nonolova {it : ImpItem}
    (hn : it.name ≠ []) (hw : ∀ c ∈ it.name, isWordChar c = true)
    (hwin : noWin (it.path ++ it.ext ++ [sq])) (rest : Str) :
    matchImportAt (stmtOf it ++ '\n' :: rest) = none := by
  have hshape : stmtOf it ++ '\n' :: rest
      = "import ".toList ++ it.name ++ " from ".toList ++ sq ::
          ((it.path ++ it.ext ++ [sq]) ++ '\n' :: rest) := by
    simp [stmtOf]
  rw [hshape, mia_shape _ hn hw (by decide), ld_none hwin]

theorem mia_inner {x : Str} (h : mism "import".toList x) (r : Str) :
    matchImportAt (x ++ r) = none := by
  unfold matchImportAt
  rw [mism_strip h]

theorem mia_newline (r : Str) : matchImportAt ('\n' :: r) = none := by
  unfold matchImportAt
  have hs : stripPre "import".toList ('\n' :: r) = none := by
    simp [stripPre]
  rw [hs]

theorem stripPre_len {p l r : Str} (h : stripPre p l = some r) :
    r.length + p.length = l.length := by
  rw [stripPre_iff] at h
  subst h
  simp
  omega

theorem grab1_parts {p : Char → Bool} {l t r : Str} (h : grab1 p l = some (t, r)) :
    l = t ++ r ∧ t ≠ [] := by
  unfold grab1 at h
  cases htw : List.takeWhile p l with
  | nil => rw [htw] at h; exact absurd h (by simp)
  | cons a b =>
    rw [htw] at h
    have h1 : a :: b = t := by
      injection h with h2
      rw [Prod.mk.injEq] at h2
      exact h2.1
    have h2 : List.dropWhile p l = r := by
      injection h with h2
      rw [Prod.mk.injEq] at h2
      exact h2.2
    subst h1
    subst h2
    exact ⟨by rw [← htw, List.takeWhile_append_dropWhile], by simp⟩

theorem checkOQ_len {l r : Str} (h : checkOQ l = some r) : r.length < l.length := by
  unfold checkOQ at h
  split at h
  · next hf =>
    have h6 : l[6]?.isSome := by
      rcases Bool.and_eq_true _ _ |>.mp hf with ⟨-, h7⟩
      cases hh : l[6]? with
      | none => rw [hh] at h7; simp at h7
      | some c => simp
    have hlen : 6 < l.length := by
      by_contra hh
      push_neg at hh
      rw [List.getElem?_eq_none (by omega)] at h6
      simp at h6
    have : r = l.drop 7 := by injection h with h1; exact h1.symm
    subst this
    simp
    omega
  · exact absurd h (by simp)

theorem ld_len {l p r : Str} (h : lazyDotOlova l = some (p, r)) : r.length < l.length := by
  induction l generalizing p r with
  | nil => simp [lazyDotOlova] at h
  | cons c t ih =>
    unfold lazyDotOlova at h
    split at h
    · exact absurd h (by simp)
    · cases hoq : checkOQ t with
      | some r' =>
        rw [hoq] at h
        have : r' = r := by
          injection h with h1
          rw [Prod.mk.injEq] at h1
          exact h1.2
        subst this
        have := checkOQ_len hoq
        simp
        omega
      | none =>
        rw [hoq] at h
        cases hld : lazyDotOlova t with
        | none => rw [hld] at h; exact absurd h (by simp)
        | some pr =>
          obtain ⟨p', r'⟩ := pr
          rw [hld] at h
          have : r' = r := by
            injection h with h1
            rw [Prod.mk.injEq] at h1
            exact h1.2
          subst this
          have := ih hld
          simp
          omega


theorem mia_len {l : Str} {n p r : Str} (h : matchImportAt l = some (n, p, r)) :
    r.length < l.length := by
  unfold matchImportAt at h
  cases h1 : stripPre "import".toList l with
  | none => rw [h1] at h; exact absurd h (by simp)
  | some l1 =>
    rw [h1] at h
    dsimp only at h
    have d1 := stripPre_len h1
    cases h2 : grab1 isJsWS l1 with
    | none => rw [h2] at h; exact absurd h (by simp)
    | some wl =>
      obtain ⟨w2, l2⟩ := wl
      rw [h2] at h
      dsimp only at h
      have d2 := grab1_parts h2
      cases h3 : grab1 isWordChar l2 with
      | none => rw [h3] at h; exact absurd h (by simp)
      | some nl =>
        obtain ⟨nm, l3⟩ := nl
        rw [h3] at h
        dsimp only at h
        have d3 := grab1_parts h3
        cases h4 : grab1 isJsWS l3 with
        | none => rw [h4] at h; exact absurd h (by simp)
        | some wl4 =>
          obtain ⟨w4, l4⟩ := wl4
          rw [h4] at h
          dsimp only at h
          have d4 := grab1_parts h4
          cases h5 : stripPre "from".toList l4 with
          | none => rw [h5] at h; exact absurd h (by simp)
          | some l5 =>
            rw [h5] at h
            dsimp only at h
            have d5 := stripPre_len h5
            cases h6 : grab1 isJsWS l5 with
            | none => rw [h6] at h; exact absurd h (by simp)
            | some wl6 =>
              obtain ⟨w6, l6⟩ := wl6
              rw [h6] at h
              dsimp only at h
              have d6 := grab1_parts h6
              cases l6 with
              | nil => exact absurd h (by simp)
              | cons c l7 =>
                dsimp only at h
                by_cases hq : quoteChar c = true
                · rw [if_pos hq] at h
                  cases h7 : lazyDotOlova l7 with
                  | none => rw [h7] at h; exact absurd h (by simp)
                  | some pr =>
                    obtain ⟨pp, rr⟩ := pr
                    rw [h7] at h
                    dsimp only at h
                    have d7 := ld_len h7
                    have hr : rr = r := by
                      injection h with hh
                      rw [Prod.mk.injEq] at hh
                      have := hh.2
                      rw [Prod.mk.injEq] at this
                      exact this.2
                    subst hr
                    have e2 : l1.length = w2.length + l2.length := by
                      rw [d2.1]; simp
                    have e3 : l2.length = nm.length + l3.length := by
                      rw [d3.1]; simp
                    have e4 : l3.length = w4.length + l4.length := by
                      rw [d4.1]; simp
                    have e6 : l5.length = w6.length + (c :: l7).length := by
                      rw [d6.1]; simp
                    have hl7 : (c :: l7).length = l7.length + 1 := by simp
                    have hp2 : 0 < w2.length := List.length_pos.mpr d2.2
                    simp at d1 d5
                    omega
                · rw [if_neg hq] at h
                  exact absurd h (by simp)

theorem fia_congr : ∀ (f1 : Nat) (l : Str) (f2 : Nat), l.length ≤ f1 → l.length ≤ f2 →
    findImportsAux f1 l = findImportsAux f2 l := by
  intro f1
  induction f1 using Nat.strong_induction_on with
  | _ f1 ih =>
    intro l f2 h1 h2
    cases l with
    | nil => cases f1 <;> cases f2 <;> simp [findImportsAux]
    | cons c t =>
      cases f1 with
      | zero => simp at h1
      | succ g1 =>
        cases f2 with
        | zero => simp at h2
        | succ g2 =>
          simp only [findImportsAux]
          cases hm : matchImportAt (c :: t) with
          | none =>
            dsimp only
            have ht : t.length ≤ g1 := by simp at h1; omega
            have ht2 : t.length ≤ g2 := by simp at h2; omega
            exact ih g1 (by omega) t g2 ht ht2
          | some npr =>
            obtain ⟨n, p, r⟩ := npr
            dsimp only
            have hr := mia_len hm
            have hr1 : r.length ≤ g1 := by simp at hr h1; omega
            have hr2 : r.length ≤ g2 := by simp at hr h2; omega
            rw [ih g1 (by omega) r g2 hr1 hr2]

theorem fi_cons_none {c : Char} {t : Str} (h : matchImportAt (c :: t) = none) :
    findImports (c :: t) = findImports t := by
  simp only [findImports, List.length_cons, findImportsAux, h]

theorem fi_cons_match {c : Char} {t : Str} {n p r : Str}
    (h : matchImportAt (c :: t) = some (n, p, r)) :
    findImports (c :: t) = (n, p ++ dotOlova) :: findImports r := by
  simp only [findImports, List.length_cons, findImportsAux, h]
  have hr := mia_len h
  simp at hr
  rw [fia_congr t.length r r.length (by omega) (le_refl _)]

theorem fi_skip {j : Str} (rest : Str)
    (h : ∀ k, k < j.length → matchImportAt (j.drop k ++ rest) = none) :
    findImports (j ++ rest) = findImports rest := by
  induction j with
  | nil => simp
  | cons c j' ih =>
    have h0 : matchImportAt (c :: (j' ++ rest)) = none := by
      have := h 0 (by simp)
      simpa using this
    have : (c :: j') ++ rest = c :: (j' ++ rest) := by simp
    rw [this, fi_cons_none h0]
    exact ih (fun k hk => by
      have := h (k + 1) (by simp; omega)
      simpa using this)

theorem fi_match {l n p r : Str} (hl : l ≠ []) (h : matchImportAt l = some (n, p, r)) :
    findImports l = (n, p ++ dotOlova) :: findImports r := by
  cases l with
  | nil => exact absurd rfl hl
  | cons c t => exact fi_cons_match h

theorem stmtOf_ne_nil (it : ImpItem) : stmtOf it ≠ [] := by
  simp [stmtOf]

theorem step_olova {it : ImpItem} (hext : it.ext = dotOlova) (hwf : wfItem it) (rest : Str) :
    findImports ((stmtOf it ++ ['\n']) ++ rest)
      = (it.name, it.path ++ dotOlova) :: findImports rest := by
  obtain ⟨hn, hw, hp, hcond⟩ := hwf
  rw [if_pos hext] at hcond
  have hshape : (stmtOf it ++ ['\n']) ++ rest = stmtOf it ++ '\n' :: rest := by simp
  rw [hshape]
  have hm := mia_olova hext hn hw hp hcond.1 hcond.2 rest
  rw [fi_match (by simp [stmtOf]) hm, fi_cons_none (mia_newline rest)]

theorem step_non {it : ImpItem} (hext : ¬ it.ext = dotOlova) (hwf : wfItem it) (rest : Str) :
    findImports ((stmtOf it ++ ['\n']) ++ rest) = findImports rest := by
  obtain ⟨hn, hw, hp, hcond⟩ := hwf
  rw [if_neg hext] at hcond
  obtain ⟨hwin, hinner⟩ := hcond
  apply fi_skip
  intro k hk
  rcases Nat.eq_zero_or_pos k with rfl | hkpos
  · have e : (stmtOf it ++ ['\n']).drop 0 ++ rest = stmtOf it ++ '\n' :: rest := by simp
    rw [e]
    exact mia_nonolova hn hw hwin rest
  · exact mia_inner (hinner k hk hkpos) rest

theorem importResolver (items : List ImpItem) (hwf : ∀ it ∈ items, wfItem it) :
    findImports (scriptOf items) = expectedRecords items := by
  induction items with
  | nil => simp [scriptOf, expectedRecords, findImports, findImportsAux]
  | cons it rest ih =>
    have hwf0 := hwf it (by simp)
    have hscript : scriptOf (it :: rest) = (stmtOf it ++ ['\n']) ++ scriptOf rest := by
      simp [scriptOf]
    rw [hscript]
    have ihr := ih (fun x hx => hwf x (by simp [hx]))
    by_cases hext : it.ext = dotOlova
    · rw [step_olova hext hwf0, ihr]
      simp [expectedRecords, List.filterMap_cons, hext]
    · rw [step_non hext hwf0, ihr]
      simp [expectedRecords, List.filterMap_cons, hext]

theorem expectedRecords_length (items : List ImpItem) :
    (expectedRecords items).length
      = (items.filter (fun it => it.ext = dotOlova)).length := by
  induction items with
  | nil => simp [expectedRecords]
  | cons it rest ih =>
    by_cases hext : it.ext = dotOlova
    · simp [expectedRecords, List.filterMap_cons, hext, List.filter_cons] at ih ⊢
      exact ih
    · simp [expectedRecords, List.filterMap_cons, hext, List.filter_cons] at ih ⊢
      exact ih

/-! ## Claim theorems -/

theorem sel_foo (t1 : Str) :
    selTransform t1 ['.', 'f', 'o', 'o'] = '[' :: (t1 ++ "] .foo".toList) := by
  simp +decide [selTransform, List.append_assoc]

theorem sel_root (t1 : Str) :
    selTransform t1 [':', 'r', 'o', 'o', 't'] = '[' :: (t1 ++ "]".toList) := by
  simp +decide [selTransform, replaceFirstSub, firstMatch, stripPre, List.append_assoc]

/-- Claim C1 (counterexample): the outputs of the CSS scoper on
`.foo { color: red; }` and `:root { --x: 1; }` with token `t1` are not
exactly the strings the claim names, already at the concrete token `t1`
(each output carries a trailing newline added by the line loop). -/
theorem cssScoper_single_rule_cex :
    ¬ (transformScopedCss ".foo \x7b color: red; \x7d".toList "t1".toList
         = "[t1] .foo \x7b color: red; \x7d".toList ∧
       transformScopedCss ":root \x7b --x: 1; \x7d".toList "t1".toList
         = "[t1] \x7b --x: 1; \x7d".toList) := by
  decide

/-- Claim C1 (amended): for every scope token `t1`, scoping the rule
`.foo { color: red; }` yields exactly `[t1] .foo { color: red; }` followed
by one newline, and scoping `:root { --x: 1; }` yields exactly
`[t1] { --x: 1; }` followed by one newline (the `:root` pseudo-class is
replaced by the bracketed token rather than prefixed). -/
theorem cssScoper_single_rule_amended (t1 : Str) :
    transformScopedCss ".foo \x7b color: red; \x7d".toList t1
      = "[".toList ++ t1 ++ "] .foo \x7b color: red; \x7d\n".toList ∧
    transformScopedCss ":root \x7b --x: 1; \x7d".toList t1
      = "[".toList ++ t1 ++ "] \x7b --x: 1; \x7d\n".toList := by
  constructor
  · simp +decide [transformScopedCss, tscAux, trimJs, splitOnChar, List.intercalate,
      isJsWS, jsWsChars, List.contains, sel_foo, List.append_assoc]
  · simp +decide [transformScopedCss, tscAux, trimJs, splitOnChar, List.intercalate,
      isJsWS, jsWsChars, List.contains, sel_root, List.append_assoc]

theorem toInt32_add_left (a b : Int) : toInt32 (toInt32 a + b) = toInt32 (a + b) := by
  simp only [toInt32]
  omega

theorem hashStep_eq_specStepShift : hashStep = specStepShift := by
  funext h c
  simp only [hashStep, specStepShift]
  calc toInt32 (toInt32 (h * 32) - h + (c.toNat : Int))
      = toInt32 (toInt32 (h * 32) + (-h + c.toNat)) := by ring_nf
    _ = toInt32 (h * 32 + (-h + c.toNat)) := toInt32_add_left _ _
    _ = toInt32 (h * 32 - h + c.toNat) := by ring_nf

/-- Claim C2 (counterexample): the spec's literal recurrence
`hash = hash*31 - hash + charCode` (which is `hash*30 + charCode`) yields
a different token than the code's `simpleHash` already on the identity
string `ab` (`bc0` versus `c21`), and the code's bit-shift form
`(hash << 5) - hash` is `hash*31 + charCode`, not equivalent to it. -/
theorem scopeToken_literal_formula_cex :
    specTokenLiteral "ab".toList ≠ codeToken "ab".toList := by
  decide

/-- Claim C2 (amended): the scope token of a file is computed by iterating
the characters of the full file identity string, accumulating
`hash = hash*32 - hash + charCode` (the bit-shift formulation
`(hash << 5) - hash + charCode`) into a 32-bit signed integer, taking the
absolute value, rendering it as a base-16 string, and truncating to 8
characters: this spec-level recurrence agrees with the code's `simpleHash`
token on every identity string. -/
theorem scopeToken_shift_formula (id : Str) : specTokenShift id = codeToken id := by
  simp [specTokenShift, codeToken, simpleHash, simpleHashInt, hashStep_eq_specStepShift]

/-- Claim C3: the scope token is a deterministic pure function of the
identity string (the model has no state or randomness), so computing it
twice on the same identity yields the same token. -/
theorem scopeToken_deterministic (id : Str) : codeToken id = codeToken id := rfl

/-- Claim C4: for a script consisting of well-formed single-line import
statements (distinct local names), the Import Resolver returns exactly
the records of the `.olova` imports, in first-occurrence order, with the
captured path re-suffixed by `.olova`; imports with any other extension
are not tracked, and the record count equals the number of
component-extension imports. -/
theorem importResolver_spec (items : List ImpItem)
    (hwf : ∀ it ∈ items, wfItem it)
    (_hnames : (items.map ImpItem.name).Nodup) :
    findImports (scriptOf items) = expectedRecords items ∧
    (findImports (scriptOf items)).length
      = (items.filter (fun it => it.ext = dotOlova)).length := by
  have h := importResolver items hwf
  exact ⟨h, by rw [h, expectedRecords_length]⟩

/-- Witness for C4: a three-import script (two `.olova`, one `.js`)
satisfies the hypotheses, and the resolver yields exactly the two
component records in order. -/
theorem importResolver_spec_witness :
    (∀ it ∈ [ImpItem.mk "Child".toList "./child".toList ".olova".toList,
              ImpItem.mk "x".toList "./util".toList ".js".toList,
              ImpItem.mk "Other".toList "./o".toList ".olova".toList], wfItem it) ∧
    (([ImpItem.mk "Child".toList "./child".toList ".olova".toList,
       ImpItem.mk "x".toList "./util".toList ".js".toList,
       ImpItem.mk "Other".toList "./o".toList ".olova".toList].map ImpItem.name).Nodup) ∧
    findImports (scriptOf [ImpItem.mk "Child".toList "./child".toList ".olova".toList,
        ImpItem.mk "x".toList "./util".toList ".js".toList,
        ImpItem.mk "Other".toList "./o".toList ".olova".toList])
      = [("Child".toList, "./child.olova".toList), ("Other".toList, "./o.olova".toList)] := by
  refine ⟨by decide, by decide, ?_⟩
  have h := (importResolver_spec
    [ImpItem.mk "Child".toList "./child".toList ".olova".toList,
     ImpItem.mk "x".toList "./util".toList ".js".toList,
     ImpItem.mk "Other".toList "./o".toList ".olova".toList] (by decide) (by decide)).1
  rw [h]
  decide

/-- Claim C5: rewriting the template `<Card title="x">Hi</Card>` with an
SFC import record named `Card` produces the placeholder
`<div data-component="Card"  title="x">Hi</div>`: a generic `div`
carrying `data-component="Card"`, with the original `title="x"` attribute
preserved and the content `Hi` preserved as children. -/
theorem templateRewriter_card :
    replaceTags "Card".toList "<Card title=\"x\">Hi</Card>".toList
      = "<div data-component=\"Card\"  title=\"x\">Hi</div>".toList ∧
    containsSub "data-component=\"Card\"".toList
      (replaceTags "Card".toList "<Card title=\"x\">Hi</Card>".toList) = true ∧
    containsSub "title=\"x\"".toList
      (replaceTags "Card".toList "<Card title=\"x\">Hi</Card>".toList) = true ∧
    containsSub ">Hi</div>".toList
      (replaceTags "Card".toList "<Card title=\"x\">Hi</Card>".toList) = true := by
  decide

/-- Claim C6: at build completion with a non-empty aggregation map, the
combined stylesheet is the concatenation of the map's entries in
insertion order, each formatted as the component comment, two newlines,
the CSS, and four newlines, emitted at the fixed path `assets/style.css`;
inserting two distinct components then finalizing yields one asset with
both comment-labelled blocks in compile order. -/
theorem cssAggregator_bundle :
    (∀ m : List (Str × Str), m ≠ [] →
       generateBundle m = some ("assets/style.css".toList, (m.map cssBlock).flatten)) ∧
    (∀ (nA nB cssA cssB : Str), nA ≠ nB →
       generateBundle (mapSet (mapSet [] nA cssA) nB cssB) =
         some ("assets/style.css".toList, cssBlock (nA, cssA) ++ cssBlock (nB, cssB))) := by
  constructor
  · intro m hm
    simp [generateBundle, combinedCssOf, List.isEmpty_iff, hm]
  · intro nA nB cssA cssB hne
    have h1 : mapSet [] nA cssA = [(nA, cssA)] := by simp [mapSet]
    have h2 : mapSet [(nA, cssA)] nB cssB = [(nA, cssA), (nB, cssB)] := by
      simp [mapSet, hne]
    rw [h1, h2]
    simp [generateBundle, combinedCssOf]

/-- Witness for C6: a singleton map emits its block, and compiling `A`
then `B` yields one asset with both blocks in order. -/
theorem cssAggregator_bundle_witness :
    ([("A".toList, ".a \x7b \x7d".toList)] ≠ ([] : List (Str × Str))) ∧
    generateBundle [("A".toList, ".a \x7b \x7d".toList)]
      = some ("assets/style.css".toList,
          ([("A".toList, ".a \x7b \x7d".toList)].map cssBlock).flatten) ∧
    ("A".toList ≠ "B".toList) ∧
    generateBundle (mapSet (mapSet [] "A".toList ".a\x7b\x7d".toList)
        "B".toList ".b\x7b\x7d".toList)
      = some ("assets/style.css".toList,
          cssBlock ("A".toList, ".a\x7b\x7d".toList)
            ++ cssBlock ("B".toList, ".b\x7b\x7d".toList)) :=
  ⟨by decide, cssAggregator_bundle.1 _ (by decide), by decide,
   cssAggregator_bundle.2 _ _ _ _ (by decide)⟩

/-- Claim C7: `mount(factory, selector, props)` with a selector matching
no node reports the not-found error and returns the no-op teardown
without invoking the factory (its result does not depend on the factory);
with a selector matching a node it clears that node's content, invokes
the factory on the cleared node with the props, and returns the factory's
teardown with no error. -/
theorem mount_behavior {π τ : Type} (querySelector : Str → Option Node)
    (componentMount : Node → π → τ) (selector : Str) (props : π) :
    (querySelector selector = none →
       mount querySelector componentMount selector props
         = (Teardown.noop, [notFoundMsg selector]) ∧
       ∀ g : Node → π → τ,
         mount querySelector componentMount selector props
           = mount querySelector g selector props) ∧
    (∀ el, querySelector selector = some el →
       mount querySelector componentMount selector props
         = (Teardown.ofComponent (componentMount { el with innerHTML := [] } props), [])) := by
  constructor
  · intro h
    refine ⟨by simp [mount, h], fun g => by simp [mount, h]⟩
  · intro el h
    simp [mount, h]

/-- Witness for C7: a miss returns the no-op teardown with the error
message; a hit returns the factory's teardown applied to the cleared
node. -/
theorem mount_behavior_witness :
    (mount (fun _ => none) (fun (_ : Node) (_ : Unit) => 0) "#app".toList ()
       = (Teardown.noop, [notFoundMsg "#app".toList])) ∧
    (mount (fun _ => some ⟨7, "old".toList⟩) (fun (n : Node) (_ : Unit) => n) "#app".toList ()
       = (Teardown.ofComponent ⟨7, []⟩, [])) :=
  ⟨((mount_behavior (fun _ => none) (fun (_ : Node) (_ : Unit) => 0) "#app".toList ()).1 rfl).1,
   (mount_behavior (fun _ => some ⟨7, "old".toList⟩) (fun (n : Node) (_ : Unit) => n)
      "#app".toList ()).2 ⟨7, "old".toList⟩ rfl⟩

/-- Claim C8: compiling a source with no style section (the style regex
does not match) produces no style-injection snippet (`cssCode` is empty)
and adds no entry to the aggregation map. -/
theorem compile_no_style (src id : Str) (isProd : Bool)
    (h : firstMatch matchStyleAt src = none) :
    (transformCore src id isProd).cssCode = [] ∧
    (transformCore src id isProd).aggEntry = none := by
  have hs : styleInfoOf src = (false, []) := by simp [styleInfoOf, h]
  simp only [transformCore, hs]
  simp

/-- Witness for C8: a script-plus-template source without a style block. -/
theorem compile_no_style_witness :
    firstMatch matchStyleAt "<script>let a = 1;</script><h1>Hi</h1>".toList = none ∧
    ((transformCore "<script>let a = 1;</script><h1>Hi</h1>".toList
        "/src/card.olova".toList false).cssCode = [] ∧
     (transformCore "<script>let a = 1;</script><h1>Hi</h1>".toList
        "/src/card.olova".toList false).aggEntry = none) :=
  ⟨by decide, compile_no_style _ _ false (by decide)⟩

theorem suffix_chain {l r : Str} (h : l <:+ r) (x : Str) : l <:+ x ++ r :=
  h.trans (List.suffix_append x r)

/-- Claim C9: for every compiled component source, the emitted module
ends with `export default <ComponentName>Component();` (plus the
template's closing whitespace): the default export is the already-invoked
factory result, not the factory itself. -/
theorem default_export_invoked (src id : Str) (isProd : Bool) :
    (exportStmt (transformCore src id isProd).componentName ++ "\n      ".toList) <:+
      (transformCore src id isProd).code := by
  simp only [transformCore, resultCodeOf, exportStmt, List.append_assoc]
  iterate 19 apply suffix_chain
  exact List.suffix_refl _

/-- Claim C10: on a scoped stylesheet whose first rule has `{` and `}` on
one line, the scoper scopes that rule's selector but leaves the `inRule`
state set, so the immediately following one-line rule is consumed by the
closing-brace branch and emitted verbatim with its selector unscoped. -/
theorem cssScoper_oneline_rule_leak :
    transformScopedCss
      ".a \x7b color: red; \x7d\n.b \x7b color: blue; \x7d".toList "t1".toList
      = "[t1] .a \x7b color: red; \x7d\n.b \x7b color: blue; \x7d\n".toList ∧
    containsSub "[t1] .b".toList
      (transformScopedCss
        ".a \x7b color: red; \x7d\n.b \x7b color: blue; \x7d".toList "t1".toList)
      = false := by
  decide

end Olova
